import Mathlib

/-!
Verification development for the Thai e-bidding document section parser
(`src/pdf_parser_v2.py`).  The Python code is shallowly embedded: strings
are `List Char` (Python strings are sequences of Unicode code points, and
`Char` is a Unicode scalar value), lines are `List (List Char)`, list
indices are `Nat`, and the fallible locator returns `Option Nat` in place
of Python's `(bool, int)` pair whose `int` is read only when the `bool` is
true.

Modelling notes, applying throughout:
* Python `str.strip()` / `str.split()` / `\s` use Unicode whitespace; the
  inputs of this parser contain only the ASCII whitespace characters
  (space, tab, CR, LF, VT, FF), which is what `isPySpace` models.  Thai
  script has no additional whitespace code points.
* Python `str.lower()` is Unicode-aware; on the Thai and ASCII text this
  parser handles it agrees with `Char.toLower` (Thai letters have no case).
* The regex character class `[๑-๙\d]` of the source is the Thai digits
  ๑–๙ together with `\d` (Unicode decimal digits).  Of the scripts `\d`
  accepts, only ASCII 0–9 and Thai ๐–๙ can ever digit-normalise to one of
  the parser's identifiers, so `isPyDigit` models exactly those two.
* Lines come from `text.split('\n')` and therefore never contain `'\n'`;
  the regex models below assume newline-free lines (Python's `.` would
  refuse `'\n'` where our model accepts any character).
-/

namespace EBid

/-- Python whitespace test, restricted to the ASCII whitespace characters
(see the modelling notes above). -/
def isPySpace (c : Char) : Bool :=
  c = ' ' || c = '\t' || c = '\n' || c = '\r' || c = '\x0b' || c = '\x0c'

/-- Python `str.lstrip()`. -/
def pyLstrip (s : List Char) : List Char := s.dropWhile isPySpace

/-- Python `str.rstrip()`. -/
def pyRstrip (s : List Char) : List Char := (s.reverse.dropWhile isPySpace).reverse

/-- Python `str.strip()`. -/
def pyStrip (s : List Char) : List Char := pyRstrip (pyLstrip s)

/-- Python `str.rstrip('.')` — removes every trailing `'.'`. -/
def pyRstripDot (s : List Char) : List Char := (s.reverse.dropWhile (fun c => c = '.')).reverse

/-- Python `str.split()` with no argument: split on whitespace runs,
discarding empty pieces. -/
def pySplit (s : List Char) : List (List Char) :=
  (List.splitOnP isPySpace s).filter (fun w => !w.isEmpty)

/-- Python `needle in hay` on strings: contiguous-substring test. -/
def pyContains (needle hay : List Char) : Bool := decide (needle <:+: hay)

/-- Python `text.split('\n')`: always one more piece than separators, so the
empty string yields one empty line. -/
def pySplitLines : List Char → List (List Char)
  | [] => [[]]
  | c :: cs =>
    if c = '\n' then [] :: pySplitLines cs
    else
      match pySplitLines cs with
      | [] => [[c]]
      | l :: ls => (c :: l) :: ls

/-- The table `THAI_TO_ARABIC` of the source, in its (insertion-ordered)
iteration order. -/
def THAI_TO_ARABIC : List (Char × Char) :=
  [('๐', '0'), ('๑', '1'), ('๒', '2'), ('๓', '3'), ('๔', '4'),
   ('๕', '5'), ('๖', '6'), ('๗', '7'), ('๘', '8'), ('๙', '9')]

/-- Python `str.replace(old, new)` for single-character `old`/`new` is
exactly per-character substitution. -/
def replaceChar (old new : Char) (s : List Char) : List Char :=
  s.map (fun c => if c = old then new else c)

/-- The function `thai_to_arabic_number` of the source: one `str.replace`
per table entry, applied in order. -/
def thai_to_arabic_number (s : List Char) : List Char :=
  THAI_TO_ARABIC.foldl (fun r p => replaceChar p.1 p.2 r) s

/-- The function `normalize_text` of the source:
`' '.join(text.lower().strip().split())`. -/
def normalize_text (s : List Char) : List Char :=
  List.intercalate [' '] (pySplit (pyStrip (s.map Char.toLower)))

/-- The table `CORE_KEYWORDS` of the source, in its iteration order. -/
def CORE_KEYWORDS : List (List Char × List (List Char)) :=
  [("1".data, [("เอกสาร").data, ("แนบ").data, ("ท้าย").data]),
   ("2".data, [("คุณสมบัติ").data, ("ผู้ยื่น").data, ("ข้อเสนอ").data]),
   ("3".data, [("หลักฐาน").data, ("การยื่น").data, ("ข้อเสนอ").data]),
   ("4".data, [("การเสนอราคา").data]),
   ("5".data, [("หลักประกัน").data, ("การเสนอราคา").data]),
   ("6".data, [("หลักเกณฑ์").data, ("สิทธิ").data, ("พิจารณา").data]),
   ("7".data, [("การทำสัญญา").data]),
   ("8".data, [("ค่าจ้าง").data, ("การจ่ายเงิน").data]),
   ("9".data, [("อัตรา").data, ("ค่าปรับ").data]),
   ("10".data, [("รับประกัน").data, ("ความชำรุด").data, ("บกพร่อง").data]),
   ("11".data, [("ข้อสงวนสิทธิ").data]),
   ("12".data, [("ปฏิบัติ").data, ("กฎหมาย").data, ("ระเบียบ").data]),
   ("13".data, [("ประเมินผล").data, ("ปฏิบัติงาน").data, ("ผู้ประกอบการ").data])]

/-- The disambiguation keyword for identifier 4 (line 89 of the source). -/
def kwBidSecurity : List Char := ("หลักประกัน").data

/-- The disambiguation keyword for identifier 11 (line 97 of the source). -/
def kwRights : List Char := ("ข้อสงวนสิทธิ").data

/-- The function `title_matches_section` of the source. -/
def title_matches_section (title : List Char) (section_num : List Char) : Bool :=
  match CORE_KEYWORDS.lookup section_num with
  | none => false
  | some keywords =>
    let title_norm := normalize_text title
    if keywords.all (fun kw => pyContains (normalize_text kw) title_norm) then
      if section_num == "4".data then
        !(pyContains kwBidSecurity title_norm) && title_norm.length < 20
      else if section_num == "7".data then
        title_norm.length < 25
      else if section_num == "11".data then
        pyContains kwRights title_norm
      else true
    else false

/-- Membership in the regex class `[๑-๙\d]` of the source (see the
modelling notes at the top of the file). -/
def isPyDigit (c : Char) : Bool := c.isDigit || ('๐' ≤ c && c ≤ '๙')

/-- Whether a (stripped) line matches the regex for a standalone numbering
line, `^[๑-๙\d]+\.$`: one or more digit-class characters, then a final
period. -/
def isStandaloneNumberLine (s : List Char) : Bool :=
  2 ≤ s.length && s.dropLast.all isPyDigit && s.getLastD ' ' = '.'

/-- One candidate test of `has_section_number_nearby`: strip the line at
index `k`, require the standalone-number regex to match, and compare the
digit-normalised numeral (trailing periods removed) with the identifier. -/
def matchesNumAt (lines : List (List Char)) (k : Nat) (section_num : List Char) : Bool :=
  let l := pyStrip (lines.getD k [])
  isStandaloneNumberLine l && thai_to_arabic_number (pyRstripDot l) == section_num

/-- The function `has_section_number_nearby` of the source, its two loops
(bounded by `range(1, min(3, ...))`, hence offsets 1 and 2) unrolled.
`some k` stands for Python's `(True, k)` and `none` for `(False, -1)`. -/
def has_section_number_nearby (lines : List (List Char)) (title_line_idx : Nat)
    (section_num : List Char) : Option Nat :=
  if 1 ≤ title_line_idx && matchesNumAt lines (title_line_idx - 1) section_num then
    some (title_line_idx - 1)
  else if 2 ≤ title_line_idx && matchesNumAt lines (title_line_idx - 2) section_num then
    some (title_line_idx - 2)
  else if title_line_idx + 1 < lines.length && matchesNumAt lines (title_line_idx + 1) section_num then
    some title_line_idx
  else if title_line_idx + 2 < lines.length && matchesNumAt lines (title_line_idx + 2) section_num then
    some title_line_idx
  else none

/-- A header discovered by the scan: the dict
`{'line': ..., 'number': ..., 'title': ...}` of the source. -/
structure Header where
  line : Nat
  number : List Char
  title : List Char
deriving DecidableEq

/-- Result of the combined regex `^([๑-๙\d]+)\.\s+(.+)$` on a stripped
line: the maximal leading digit run (group 1), a literal period, at least
one whitespace character, then a non-empty remainder (group 2).  Because
the input is stripped, the remainder of a successful match begins with a
non-whitespace character and has no trailing whitespace. -/
def combinedMatch (s : List Char) : Option (List Char × List Char) :=
  let ds := s.takeWhile isPyDigit
  if ds.isEmpty then none
  else
    match s.dropWhile isPyDigit with
    | '.' :: r =>
      let ws := r.takeWhile isPySpace
      let rest := r.dropWhile isPySpace
      if ws.isEmpty || rest.isEmpty then none else some (ds, rest)
    | _ => none

/-- Leading-whitespace count of a line:
`len(line) - len(line.lstrip())` in the source. -/
def indentOf (line : List Char) : Nat := (line.takeWhile isPySpace).length

/-- The body of the scanning loop of `find_section_by_title_scan` for one
line index `i` and one identifier: pattern 1 (combined numeral-and-title
line) and, only when the combined regex fails to match (the source's
`elif`), pattern 2 (title-only line corroborated by
`has_section_number_nearby`).  Returns the accepted header, if any. -/
def headerAt (lines : List (List Char)) (i : Nat) (section_str : List Char) : Option Header :=
  let line := lines.getD i []
  let line_clean := pyStrip line
  match combinedMatch line_clean with
  | some (numPart, rest) =>
    let num_part := thai_to_arabic_number numPart
    let title_part := pyStrip rest
    if num_part == section_str && title_matches_section title_part section_str then
      if indentOf line < 25 then some ⟨i, section_str, title_part⟩ else none
    else none
  | none =>
    if 10 < line_clean.length && title_matches_section line_clean section_str then
      match has_section_number_nearby lines i section_str with
      | some num_line =>
        if indentOf (lines.getD num_line []) < 25 then
          some ⟨num_line, section_str, line_clean⟩
        else none
      | none => none
    else none

/-- First `some` value of `f` along a list of indices: the `break` at the
first accepted line of the source's scan. -/
def firstSome (f : Nat → Option Header) : List Nat → Option Header
  | [] => none
  | i :: is =>
    match f i with
    | some h => some h
    | none => firstSome f is

/-- The scan of one identifier over all lines: first accepted line wins. -/
def findHeaderFor (lines : List (List Char)) (section_str : List Char) : Option Header :=
  firstSome (fun i => headerAt lines i section_str) (List.range lines.length)

/-- The identifiers `str(i) for i in range(1, 14)`, in scan order. -/
def SECTION_IDS : List (List Char) :=
  ["1", "2", "3", "4", "5", "6", "7", "8", "9", "10", "11", "12", "13"].map String.data

/-- Insert a header into a line-sorted list, after any header with the
same line index: the insertion step of a stable sort by the `line` key. -/
def insertByLine (a : Header) : List Header → List Header
  | [] => [a]
  | b :: l => if b.line ≤ a.line then b :: insertByLine a l else a :: b :: l

/-- Stable insertion sort by the `line` key.  Python's
`sorted(headers, key=lambda x: x['line'])` is a stable sort by the same
key, and a stable sort by a key is unique, so this computes the same
list. -/
def sortByLine : List Header → List Header
  | [] => []
  | a :: l => insertByLine a (sortByLine l)

/-- The function `find_section_by_title_scan` of the source: one optional
header per identifier, in identifier order (the `found_sections` set only
re-checks the identifier being scanned, so it never changes the result),
finally sorted by line index. -/
def find_section_by_title_scan (lines : List (List Char)) : List Header :=
  sortByLine (SECTION_IDS.filterMap (findHeaderFor lines))

/-- An output section: the dict built by `parse_document` per header. -/
structure Sec where
  section_number : List Char
  title : List Char
  line_number : Nat
  content : List Char
  content_length : Nat
deriving DecidableEq

/-- The dict returned by `parse_document`. -/
structure ParsedDocument where
  document_title : List Char
  total_sections : Nat
  sections : List Sec
  missing_sections : List (List Char)
deriving DecidableEq

/-- The fixed `document_title` string of the source. -/
def DOC_TITLE : List Char :=
  ("เอกสารประกวดราคาเช่าด้วยวิธีประกวดราคาอิเล็กทรอนิกส์ (e-bidding)").data

/-- Content extraction for one header (body of the assembly loop of
`parse_document`): content starts after the anchor line — one line later
when the line after the anchor is the (normalised) title itself — and runs
to `end_line` (exclusive); the slice is joined with newlines and
stripped. -/
def mkSection (lines : List (List Char)) (h : Header) (end_line : Nat) : Sec :=
  let start_line := h.line
  let content_start :=
    if start_line + 1 < lines.length then
      let next_line := pyStrip (lines.getD (start_line + 1) [])
      if !next_line.isEmpty && normalize_text next_line == normalize_text h.title then
        start_line + 2
      else start_line + 1
    else start_line + 1
  let content_lines := (lines.drop content_start).take (end_line - content_start)
  let content := pyStrip (List.intercalate [('\n')] content_lines)
  ⟨h.number, h.title, h.line, content, content.length⟩

/-- The assembly loop of `parse_document`: each header's content ends at
the next header's line, the last header's at end of document. -/
def assemble (lines : List (List Char)) : List Header → List Sec
  | [] => []
  | h :: rest =>
    let end_line :=
      match rest with
      | h2 :: _ => h2.line
      | [] => lines.length
    mkSection lines h end_line :: assemble lines rest

/-- The function `parse_document` of the source.  `missing_sections` is
the set difference `expected - found` sorted numerically; filtering the
numerically-ordered `SECTION_IDS` produces exactly that sorted list. -/
def parse_document (text : List Char) : ParsedDocument :=
  let lines := pySplitLines text
  let headers := find_section_by_title_scan lines
  let missing := SECTION_IDS.filter (fun s => !(headers.any (fun h => h.number == s)))
  let sections := assemble lines headers
  ⟨DOC_TITLE, sections.length, sections, missing⟩

/-- Modelled from the spec: the per-character substitution the Numeral
Normalizer is specified to perform — every Thai digit glyph ๐–๙ becomes
its Arabic equivalent 0–9, every other character is unchanged.  This is
the comparison point for the refinement claims about
`thai_to_arabic_number`. -/
def thaiDigitGlyphToArabic (c : Char) : Char :=
  if c = '๐' then '0' else if c = '๑' then '1' else if c = '๒' then '2'
  else if c = '๓' then '3' else if c = '๔' then '4' else if c = '๕' then '5'
  else if c = '๖' then '6' else if c = '๗' then '7' else if c = '๘' then '8'
  else if c = '๙' then '9' else c

/-- Concrete input of the two-section boundary test: the seven lines of
the spec's example, joined with newlines. -/
def demoText : List Char :=
  ("...\n๕.\nหลักประกันการเสนอราคา\ncontent A\n๖.\nหลักเกณฑ์และสิทธิ์ในการพิจารณา\ncontent B").data

/-- Concrete line list on which the title-only pattern accepts a header
although the confirming standalone numeral sits on a line indented by 25
spaces: a section-5 title line, then 25 spaces and the numeral ๕. -/
def cexLines : List (List Char) :=
  [("หลักประกันการเสนอราคา").data, ("                         ๕.").data]

/-- Concrete line list with a standalone numeral both one line before and
one line after a middle line. -/
def demo3Lines : List (List Char) :=
  [("๕.").data, ("x").data, ("๕.").data]

/-- Concrete line list: a standalone numeral followed by a matching title
line. -/
def numFirstLines : List (List Char) :=
  [("๕.").data, ("หลักประกันการเสนอราคา").data]

/-- Concrete whitespace-only input text. -/
def wsText : List Char := ("  \n \t ").data

/-! Helper lemmas about the stable sort. -/

lemma insertByLine_perm (a : Header) : ∀ l : List Header, List.Perm (insertByLine a l) (a :: l) := by
  intro l
  induction l with
  | nil => simp [insertByLine]
  | cons b l ih =>
    by_cases hb : b.line ≤ a.line
    · simp only [insertByLine, if_pos hb]
      exact (ih.cons b).trans (List.Perm.swap a b l)
    · simp [insertByLine, if_neg hb]

lemma sortByLine_perm : ∀ l : List Header, List.Perm (sortByLine l) l := by
  intro l
  induction l with
  | nil => simp [sortByLine]
  | cons a l ih => exact (insertByLine_perm a (sortByLine l)).trans (ih.cons a)

lemma mem_insertByLine {x a : Header} {l : List Header} :
    x ∈ insertByLine a l ↔ x = a ∨ x ∈ l := by
  rw [(insertByLine_perm a l).mem_iff, List.mem_cons]

lemma pairwise_insertByLine {a : Header} {l : List Header}
    (hl : l.Pairwise (fun x y => x.line ≤ y.line)) :
    (insertByLine a l).Pairwise (fun x y => x.line ≤ y.line) := by
  induction l with
  | nil => simp [insertByLine]
  | cons b l ih =>
    rcases List.pairwise_cons.mp hl with ⟨hb, hl'⟩
    by_cases hba : b.line ≤ a.line
    · simp only [insertByLine, if_pos hba]
      refine List.pairwise_cons.mpr ⟨?_, ih hl'⟩
      intro y hy
      rcases mem_insertByLine.mp hy with rfl | hy
      · exact hba
      · exact hb y hy
    · simp only [insertByLine, if_neg hba]
      have hab : a.line ≤ b.line := Nat.le_of_not_le hba
      refine List.pairwise_cons.mpr ⟨?_, hl⟩
      intro y hy
      rcases List.mem_cons.mp hy with rfl | hy
      · exact hab
      · exact hab.trans (hb y hy)

lemma sortByLine_sorted : ∀ l : List Header,
    (sortByLine l).Pairwise (fun x y => x.line ≤ y.line) := by
  intro l
  induction l with
  | nil => simp [sortByLine]
  | cons a l ih => exact pairwise_insertByLine ih

/-! Helper lemmas about the numeral normaliser. -/

lemma thai_cons (c : Char) (s : List Char) :
    thai_to_arabic_number (c :: s) =
      thai_to_arabic_number [c] ++ thai_to_arabic_number s := by
  simp [thai_to_arabic_number, THAI_TO_ARABIC, replaceChar]

lemma thai_single (c : Char) :
    thai_to_arabic_number [c] = [thaiDigitGlyphToArabic c] := by
  by_cases h0 : c = '๐'
  · subst h0; decide
  by_cases h1 : c = '๑'
  · subst h1; decide
  by_cases h2 : c = '๒'
  · subst h2; decide
  by_cases h3 : c = '๓'
  · subst h3; decide
  by_cases h4 : c = '๔'
  · subst h4; decide
  by_cases h5 : c = '๕'
  · subst h5; decide
  by_cases h6 : c = '๖'
  · subst h6; decide
  by_cases h7 : c = '๗'
  · subst h7; decide
  by_cases h8 : c = '๘'
  · subst h8; decide
  by_cases h9 : c = '๙'
  · subst h9; decide
  simp [thai_to_arabic_number, THAI_TO_ARABIC, replaceChar, thaiDigitGlyphToArabic,
    h0, h1, h2, h3, h4, h5, h6, h7, h8, h9]

lemma thai_eq_map : ∀ s : List Char,
    thai_to_arabic_number s = s.map thaiDigitGlyphToArabic := by
  intro s
  induction s with
  | nil => rfl
  | cons c s ih => rw [thai_cons, thai_single, ih]; rfl

lemma thaiDigitGlyphToArabic_idem (c : Char) :
    thaiDigitGlyphToArabic (thaiDigitGlyphToArabic c) = thaiDigitGlyphToArabic c := by
  by_cases h0 : c = '๐'
  · subst h0; decide
  by_cases h1 : c = '๑'
  · subst h1; decide
  by_cases h2 : c = '๒'
  · subst h2; decide
  by_cases h3 : c = '๓'
  · subst h3; decide
  by_cases h4 : c = '๔'
  · subst h4; decide
  by_cases h5 : c = '๕'
  · subst h5; decide
  by_cases h6 : c = '๖'
  · subst h6; decide
  by_cases h7 : c = '๗'
  · subst h7; decide
  by_cases h8 : c = '๘'
  · subst h8; decide
  by_cases h9 : c = '๙'
  · subst h9; decide
  have hc : thaiDigitGlyphToArabic c = c := by
    simp [thaiDigitGlyphToArabic, h0, h1, h2, h3, h4, h5, h6, h7, h8, h9]
  rw [hc, hc]

/-! Helper lemmas about the numbering locator and the scanner. -/

lemma nearby_le {lines : List (List Char)} {i : Nat} {sec : List Char} {j : Nat}
    (h : has_section_number_nearby lines i sec = some j) : j ≤ i := by
  unfold has_section_number_nearby at h
  split_ifs at h <;> simp_all <;> omega

lemma headerAt_eq (lines : List (List Char)) (i : Nat) (sec : List Char) :
    headerAt lines i sec =
      match combinedMatch (pyStrip (lines.getD i [])) with
      | some (numPart, rest) =>
        if (thai_to_arabic_number numPart == sec &&
            title_matches_section (pyStrip rest) sec) = true then
          if indentOf (lines.getD i []) < 25 then
            some ⟨i, sec, pyStrip rest⟩
          else none
        else none
      | none =>
        if (decide (10 < (pyStrip (lines.getD i [])).length) &&
            title_matches_section (pyStrip (lines.getD i [])) sec) = true then
          match has_section_number_nearby lines i sec with
          | some num_line =>
            if indentOf (lines.getD num_line []) < 25 then
              some ⟨num_line, sec, pyStrip (lines.getD i [])⟩
            else none
          | none => none
        else none := rfl

lemma headerAt_inv {lines : List (List Char)} {i : Nat} {sec : List Char} {h : Header}
    (hh : headerAt lines i sec = some h) :
    h.number = sec ∧ h.line ≤ i ∧ indentOf (lines.getD h.line []) < 25 := by
  rw [headerAt_eq] at hh
  split at hh
  · split_ifs at hh with hcond hind
    rcases Option.some_inj.mp hh with rfl
    exact ⟨rfl, Nat.le_refl i, hind⟩
  · split_ifs at hh with hcond
    rename_i hcm
    cases hnb : has_section_number_nearby lines i sec with
    | some num_line =>
      rw [hnb] at hh
      simp only at hh
      split_ifs at hh with hind
      rcases Option.some_inj.mp hh with rfl
      exact ⟨rfl, nearby_le hnb, hind⟩
    | none => rw [hnb] at hh; cases hh

lemma firstSome_eq_some {f : Nat → Option Header} {h : Header} :
    ∀ {l : List Nat}, firstSome f l = some h → ∃ i ∈ l, f i = some h := by
  intro l
  induction l with
  | nil => intro hx; cases hx
  | cons i l ih =>
    intro hx
    unfold firstSome at hx
    cases hfi : f i with
    | some h' =>
      rw [hfi] at hx
      simp only at hx
      rcases Option.some_inj.mp hx with rfl
      exact ⟨i, List.mem_cons_self i l, hfi⟩
    | none =>
      rw [hfi] at hx
      simp only at hx
      rcases ih hx with ⟨j, hj, hfj⟩
      exact ⟨j, List.mem_cons_of_mem i hj, hfj⟩

lemma findHeaderFor_inv {lines : List (List Char)} {sec : List Char} {h : Header}
    (hf : findHeaderFor lines sec = some h) :
    h.number = sec ∧ h.line < lines.length ∧ indentOf (lines.getD h.line []) < 25 := by
  rcases firstSome_eq_some hf with ⟨i, hi, hha⟩
  rcases headerAt_inv hha with ⟨hnum, hle, hind⟩
  exact ⟨hnum, Nat.lt_of_le_of_lt hle (List.mem_range.mp hi), hind⟩

lemma mem_scan_inv {lines : List (List Char)} {h : Header}
    (hm : h ∈ find_section_by_title_scan lines) :
    ∃ sec ∈ SECTION_IDS, findHeaderFor lines sec = some h := by
  have hm' := (sortByLine_perm _).mem_iff.mp hm
  exact List.mem_filterMap.mp hm'

/-! Helper lemmas for counting sections and missing identifiers. -/

lemma countSplit {α β : Type} (f : α → Option β) :
    ∀ l : List α,
      (l.filterMap f).length + (l.filter (fun a => (f a).isNone)).length = l.length := by
  intro l
  induction l with
  | nil => rfl
  | cons a l ih =>
    cases hfa : f a with
    | some b =>
      simp [List.filterMap_cons, List.filter_cons, hfa]
      omega
    | none =>
      simp [List.filterMap_cons, List.filter_cons, hfa]
      omega

lemma assemble_length (lines : List (List Char)) :
    ∀ hs : List Header, (assemble lines hs).length = hs.length := by
  intro hs
  induction hs with
  | nil => rfl
  | cons h rest ih => simp [assemble, ih]

lemma assemble_proj (lines : List (List Char)) :
    ∀ hs : List Header,
      (assemble lines hs).map (fun s => (s.line_number, s.section_number)) =
        hs.map (fun h => (h.line, h.number)) := by
  intro hs
  induction hs with
  | nil => rfl
  | cons h rest ih => simp [assemble, mkSection, ih]

lemma scan_any_iff (lines : List (List Char)) (s : List Char) (hs : s ∈ SECTION_IDS) :
    ((find_section_by_title_scan lines).any (fun h => h.number == s)) =
      (findHeaderFor lines s).isSome := by
  cases hfind : findHeaderFor lines s with
  | some h =>
    have hmem : h ∈ find_section_by_title_scan lines := by
      unfold find_section_by_title_scan
      exact (sortByLine_perm _).mem_iff.mpr
        (List.mem_filterMap.mpr ⟨s, hs, hfind⟩)
    have : (find_section_by_title_scan lines).any (fun h => h.number == s) = true := by
      refine List.any_eq_true.mpr ⟨h, hmem, ?_⟩
      exact beq_iff_eq.mpr (findHeaderFor_inv hfind).1
    simp [this]
  | none =>
    have : (find_section_by_title_scan lines).any (fun h => h.number == s) = false := by
      rw [← Bool.not_eq_true]
      intro hany
      rcases List.any_eq_true.mp hany with ⟨h, hmem, hnum⟩
      rcases mem_scan_inv hmem with ⟨s', _, hfind'⟩
      have : s' = s := by
        have := (findHeaderFor_inv hfind').1
        rw [← this]
        exact beq_iff_eq.mp hnum
      rw [this, hfind] at hfind'
      cases hfind'
    simp [this]

/-! Helper lemmas about whitespace-only input. -/

lemma pyStrip_allWs {l : List Char} (h : ∀ c ∈ l, isPySpace c = true) : pyStrip l = [] := by
  have h1 : pyLstrip l = [] := List.dropWhile_eq_nil_iff.mpr h
  unfold pyStrip
  rw [h1]
  rfl

lemma pySplitLines_ne_nil : ∀ s : List Char, pySplitLines s ≠ [] := by
  intro s
  induction s with
  | nil => simp [pySplitLines]
  | cons c cs ih =>
    by_cases hc : c = '\n'
    · simp [pySplitLines, hc]
    · simp only [pySplitLines, if_neg hc]
      cases hrec : pySplitLines cs with
      | nil => simp
      | cons l ls => simp

lemma pySplitLines_allWs : ∀ {text : List Char}, (∀ c ∈ text, isPySpace c = true) →
    ∀ l ∈ pySplitLines text, ∀ c ∈ l, isPySpace c = true := by
  intro text
  induction text with
  | nil =>
    intro _ l hl c hc
    simp [pySplitLines] at hl
    subst hl
    cases hc
  | cons a cs ih =>
    intro h l hl c hc
    have ha : isPySpace a = true := h a (List.mem_cons_self a cs)
    have hcs : ∀ x ∈ cs, isPySpace x = true := fun x hx => h x (List.mem_cons_of_mem a hx)
    by_cases hnl : a = '\n'
    · simp only [pySplitLines, if_pos hnl] at hl
      rcases List.mem_cons.mp hl with rfl | hl'
      · cases hc
      · exact ih hcs l hl' c hc
    · simp only [pySplitLines, if_neg hnl] at hl
      cases hrec : pySplitLines cs with
      | nil => exact absurd hrec (pySplitLines_ne_nil cs)
      | cons l0 ls =>
        rw [hrec] at hl
        rcases List.mem_cons.mp hl with rfl | hl'
        · rcases List.mem_cons.mp hc with rfl | hc'
          · exact ha
          · exact ih hcs l0 (by rw [hrec]; exact List.mem_cons_self l0 ls) c hc'
        · exact ih hcs l (by rw [hrec]; exact List.mem_cons_of_mem l0 hl') c hc

lemma headerAt_ws_none {lines : List (List Char)} {i : Nat} {sec : List Char}
    (h : ∀ l ∈ lines, ∀ c ∈ l, isPySpace c = true) : headerAt lines i sec = none := by
  have hline : ∀ c ∈ lines.getD i [], isPySpace c = true := by
    by_cases hi : i < lines.length
    · intro c hc
      rw [List.getD_eq_getElem lines [] hi] at hc
      exact h _ (List.getElem_mem hi) c hc
    · intro c hc
      rw [List.getD_eq_default lines [] (Nat.le_of_not_lt hi)] at hc
      cases hc
  have hclean : pyStrip (lines.getD i []) = [] := pyStrip_allWs hline
  rw [headerAt_eq, hclean]
  rw [show combinedMatch ([] : List Char) = none from rfl]
  simp

lemma firstSome_none {f : Nat → Option Header} (hf : ∀ i, f i = none) :
    ∀ l : List Nat, firstSome f l = none := by
  intro l
  induction l with
  | nil => rfl
  | cons i is ih =>
    unfold firstSome
    rw [hf i]
    exact ih

lemma scan_ws_nil {lines : List (List Char)}
    (h : ∀ l ∈ lines, ∀ c ∈ l, isPySpace c = true) :
    find_section_by_title_scan lines = [] := by
  have hfm : SECTION_IDS.filterMap (findHeaderFor lines) = [] := by
    refine List.filterMap_eq_nil_iff.mpr ?_
    intro s _
    unfold findHeaderFor
    exact firstSome_none (fun i => headerAt_ws_none h) _
  unfold find_section_by_title_scan
  rw [hfm]
  rfl

/-! The claims. -/

/-- C1: for the seven-line input text of the spec's boundary example,
`parse_document` returns exactly two sections, in order: identifier "5"
with the bid-security title and content "content A", then identifier "6"
with the evaluation-criteria title and content "content B"; the next
header's numeral and title lines are excluded from the prior section's
content. -/
theorem C1_demo_two_sections :
    (parse_document demoText).sections.map (fun s => (s.section_number, s.title, s.content)) =
      [(("5").data, ("หลักประกันการเสนอราคา").data, ("content A").data),
       (("6").data, ("หลักเกณฑ์และสิทธิ์ในการพิจารณา").data, ("content B").data)] ∧
    (parse_document demoText).total_sections = 2 := by decide

/-- C8: the numeral normaliser `thai_to_arabic_number` maps every Thai
digit glyph ๐–๙ to its Arabic equivalent 0–9 and leaves every other
character unchanged — it is the character-wise map of
`thaiDigitGlyphToArabic` — and in particular sends "๕" to "5" and
"abc๑๒๓" to "abc123". -/
theorem C8_normalizer_charwise :
    (∀ s : List Char, thai_to_arabic_number s = s.map thaiDigitGlyphToArabic) ∧
    thai_to_arabic_number (("๕").data) = ("5").data ∧
    thai_to_arabic_number (("abc๑๒๓").data) = ("abc123").data :=
  ⟨thai_eq_map, by decide, by decide⟩

/-- C10: the numeral normaliser is idempotent — applying
`thai_to_arabic_number` twice equals applying it once, since its output
never contains a Thai digit glyph. -/
theorem C10_normalizer_idempotent :
    ∀ s : List Char,
      thai_to_arabic_number (thai_to_arabic_number s) = thai_to_arabic_number s := by
  intro s
  rw [thai_eq_map, thai_eq_map, List.map_map]
  have hfun : thaiDigitGlyphToArabic ∘ thaiDigitGlyphToArabic = thaiDigitGlyphToArabic :=
    funext thaiDigitGlyphToArabic_idem
  rw [hfun]

/-- C9: the embedded parser accesses only in-range indices: any anchor
the numbering locator reports is at most the title index (and in range
whenever the title index is), and every header the scanner produces has
its anchor line inside the line list — so the scanner's indentation
lookup and the assembler's guarded look-ahead at `anchor + 1` (the guard
is the `if start_line + 1 < len(lines)` of the source, mirrored in
`mkSection`) stay in bounds. -/
theorem C9_index_bounds :
    ∀ lines : List (List Char),
      (∀ i sec j, has_section_number_nearby lines i sec = some j →
        j ≤ i ∧ (i < lines.length → j < lines.length)) ∧
      (∀ h ∈ find_section_by_title_scan lines, h.line < lines.length) := by
  intro lines
  constructor
  · intro i sec j hz
    have hle := nearby_le hz
    exact ⟨hle, fun hi => Nat.lt_of_le_of_lt hle hi⟩
  · intro h hm
    rcases mem_scan_inv hm with ⟨sec, _, hfind⟩
    exact (findHeaderFor_inv hfind).2.1

/-- Witness for C9 at a concrete input. -/
theorem C9_witness :
    has_section_number_nearby demo3Lines 1 (("5").data) = some 0 ∧
    0 ≤ 1 ∧ (1 < demo3Lines.length → 0 < demo3Lines.length) :=
  ⟨by decide, (C9_index_bounds demo3Lines).1 1 (("5").data) 0 (by decide)⟩

/-- C2, counterexample to the claim as stated: on `cexLines` the Header
Scanner's title-only pattern accepts a header for identifier "5" at line
0 (the combined pattern does not match there), the confirming standalone
numeral is on line 1 — the only line of the after-window, as reported by
the locator's anchor — and line 1's leading-whitespace count is 25, at
the indentation ceiling.  So a title-only candidate whose confirming
numeral's line is indented at or above the ceiling can be accepted. -/
theorem C2_counterexample :
    find_section_by_title_scan cexLines =
      [⟨0, ("5").data, ("หลักประกันการเสนอราคา").data⟩] ∧
    combinedMatch (pyStrip (cexLines.getD 0 [])) = none ∧
    matchesNumAt cexLines 1 (("5").data) = true ∧
    (∀ k, matchesNumAt cexLines k (("5").data) = true → k = 1) ∧
    has_section_number_nearby cexLines 0 (("5").data) = some 0 ∧
    25 ≤ indentOf (cexLines.getD 1 []) := by
  refine ⟨by decide, by decide, by decide, ?_, by decide, by decide⟩
  intro k hk
  by_cases h0 : k = 0
  · subst h0; revert hk; decide
  · by_cases h1 : k = 1
    · exact h1
    · have h2 : 2 ≤ k := by omega
      have : cexLines.getD k [] = [] :=
        List.getD_eq_default cexLines [] (by simp [cexLines]; omega)
      rw [matchesNumAt, this] at hk
      exact absurd hk (by decide)

/-- C2, amended: in the title-only pattern the indentation test is
applied to the line at the anchor the Numbering Locator returns — the
confirming numeral's own line when the numeral precedes the title, but
the title line itself when the numeral follows — and a candidate whose
anchor line is indented at or above the ceiling is never accepted. -/
theorem C2_anchor_indent :
    ∀ (lines : List (List Char)) (i : Nat) (sec : List Char) (h : Header),
      combinedMatch (pyStrip (lines.getD i [])) = none →
      headerAt lines i sec = some h →
      indentOf (lines.getD h.line []) < 25 :=
  fun _ _ _ _ _ hh => (headerAt_inv hh).2.2

/-- Witness for C2's amended theorem at a concrete input. -/
theorem C2_witness : indentOf (numFirstLines.getD 0 []) < 25 :=
  C2_anchor_indent numFirstLines 1 (("5").data)
    ⟨0, ("5").data, ("หลักประกันการเสนอราคา").data⟩ (by decide) (by decide)

/-- Unfolding of the title matcher at identifier "4": the keyword
conjunction for the singleton keyword list, then the identifier-4
disambiguation. -/
lemma tms4 (t : List Char) :
    title_matches_section t ("4".data) =
      (if (pyContains (normalize_text (("การเสนอราคา").data)) (normalize_text t) && true) = true
       then !pyContains kwBidSecurity (normalize_text t) && decide ((normalize_text t).length < 20)
       else false) := rfl

/-- C6: the Title Matcher accepts a title for identifier "4" exactly when
its normalised form contains "การเสนอราคา", has length below 20 and does
not contain "หลักประกัน"; in particular a title whose normalised form
contains "หลักประกันการเสนอราคา" is always rejected for identifier
"4". -/
theorem C6_matcher_section4 :
    ∀ t : List Char,
      (title_matches_section t ("4".data) =
        (pyContains (("การเสนอราคา").data) (normalize_text t) &&
         decide ((normalize_text t).length < 20) &&
         !pyContains (("หลักประกัน").data) (normalize_text t))) ∧
      (pyContains (("หลักประกันการเสนอราคา").data) (normalize_text t) = true →
        title_matches_section t ("4".data) = false) := by
  intro t
  have hkw : normalize_text (("การเสนอราคา").data) = ("การเสนอราคา").data := by decide
  have hbs : kwBidSecurity = ("หลักประกัน").data := rfl
  constructor
  · rw [tms4, hkw, hbs]
    cases hA : pyContains (("การเสนอราคา").data) (normalize_text t) <;>
      cases hB : pyContains (("หลักประกัน").data) (normalize_text t) <;>
        cases hD : decide ((normalize_text t).length < 20) <;> simp
  · intro hIn
    unfold pyContains at hIn
    have hpre : (("หลักประกัน").data : List Char) <:+: (("หลักประกันการเสนอราคา").data : List Char) := by
      decide
    have hinf := of_decide_eq_true hIn
    have hsub : pyContains kwBidSecurity (normalize_text t) = true :=
      decide_eq_true (hpre.trans hinf)
    rw [tms4]
    simp [hsub]

/-- Witness for C6 at a concrete title. -/
theorem C6_witness :
    title_matches_section (("หลักประกันการเสนอราคา").data) ("4".data) = false :=
  (C6_matcher_section4 (("หลักประกันการเสนอราคา").data)).2 (by decide)

/-- C7: on empty or whitespace-only input, `parse_document` returns a
document with no sections, `total_sections = 0`, and all thirteen
identifiers missing, in numeric order. -/
theorem C7_degenerate_input :
    ∀ text : List Char, (∀ c ∈ text, isPySpace c = true) →
      (parse_document text).total_sections = 0 ∧
      (parse_document text).sections = [] ∧
      (parse_document text).missing_sections =
        (["1", "2", "3", "4", "5", "6", "7", "8", "9", "10", "11", "12", "13"] :
          List String).map String.data := by
  intro text hws
  have hscan : find_section_by_title_scan (pySplitLines text) = [] :=
    scan_ws_nil (pySplitLines_allWs hws)
  refine ⟨?_, ?_, ?_⟩
  · show (assemble (pySplitLines text) (find_section_by_title_scan (pySplitLines text))).length = 0
    rw [hscan]
    rfl
  · show assemble (pySplitLines text) (find_section_by_title_scan (pySplitLines text)) = []
    rw [hscan]
    rfl
  · show SECTION_IDS.filter
        (fun s => !((find_section_by_title_scan (pySplitLines text)).any (fun h => h.number == s))) = _
    rw [hscan]
    decide

/-- Witness for C7 at a concrete whitespace-only input. -/
theorem C7_witness :
    (parse_document wsText).total_sections = 0 ∧
    (parse_document wsText).sections = [] ∧
    (parse_document wsText).missing_sections =
      (["1", "2", "3", "4", "5", "6", "7", "8", "9", "10", "11", "12", "13"] :
        List String).map String.data :=
  C7_degenerate_input wsText (by decide)

/-- C4: on every input text, `total_sections` equals the length of the
sections list, and `total_sections` plus the number of missing
identifiers equals 13. -/
theorem C4_section_counts :
    ∀ text : List Char,
      (parse_document text).total_sections = (parse_document text).sections.length ∧
      (parse_document text).total_sections + (parse_document text).missing_sections.length = 13 := by
  intro text
  refine ⟨rfl, ?_⟩
  have h1 : (parse_document text).total_sections =
      (SECTION_IDS.filterMap (findHeaderFor (pySplitLines text))).length := by
    show (assemble (pySplitLines text) (find_section_by_title_scan (pySplitLines text))).length = _
    rw [assemble_length]
    exact (sortByLine_perm _).length_eq
  have h2 : (parse_document text).missing_sections =
      SECTION_IDS.filter (fun s => (findHeaderFor (pySplitLines text) s).isNone) := by
    show SECTION_IDS.filter
        (fun s => !((find_section_by_title_scan (pySplitLines text)).any (fun h => h.number == s))) = _
    refine List.filter_congr ?_
    intro s hs
    rw [scan_any_iff (pySplitLines text) s hs]
    cases findHeaderFor (pySplitLines text) s <;> rfl
  rw [h1, h2]
  exact countSplit (findHeaderFor (pySplitLines text)) SECTION_IDS

/-- C5: on every input text, the sections list is sorted by ascending
line number, and no identifier occurs in more than one section. -/
theorem C5_sorted_unique :
    ∀ text : List Char,
      (parse_document text).sections.Pairwise (fun a b => a.line_number ≤ b.line_number) ∧
      (parse_document text).sections.Pairwise (fun a b => a.section_number ≠ b.section_number) := by
  intro text
  have hsec : (parse_document text).sections =
      assemble (pySplitLines text) (find_section_by_title_scan (pySplitLines text)) := rfl
  have hsorted : (find_section_by_title_scan (pySplitLines text)).Pairwise
      (fun a b => a.line ≤ b.line) :=
    sortByLine_sorted (SECTION_IDS.filterMap (findHeaderFor (pySplitLines text)))
  have hperm : List.Perm (find_section_by_title_scan (pySplitLines text))
      (SECTION_IDS.filterMap (findHeaderFor (pySplitLines text))) :=
    sortByLine_perm _
  have hraw : (SECTION_IDS.filterMap (findHeaderFor (pySplitLines text))).Pairwise
      (fun a b => a.number ≠ b.number) := by
    rw [List.pairwise_filterMap]
    have hnd : SECTION_IDS.Pairwise (fun a b => a ≠ b) := by decide
    refine hnd.imp ?_
    intro a b hab h1 hm1 h2 hm2
    have e1 : h1.number = a := (findHeaderFor_inv (Option.mem_def.mp hm1)).1
    have e2 : h2.number = b := (findHeaderFor_inv (Option.mem_def.mp hm2)).1
    rw [e1, e2]
    exact hab
  have hne : (find_section_by_title_scan (pySplitLines text)).Pairwise
      (fun a b => a.number ≠ b.number) :=
    (hperm.pairwise_iff (fun hxy => Ne.symm hxy)).mpr hraw
  have hmap := assemble_proj (pySplitLines text) (find_section_by_title_scan (pySplitLines text))
  rw [hsec]
  constructor
  · have h' : ((assemble (pySplitLines text)
        (find_section_by_title_scan (pySplitLines text))).map
          (fun s => (s.line_number, s.section_number))).Pairwise
        (fun p q => p.1 ≤ q.1) := by
      rw [hmap, List.pairwise_map]
      exact hsorted
    rw [List.pairwise_map] at h'
    exact h'
  · have h' : ((assemble (pySplitLines text)
        (find_section_by_title_scan (pySplitLines text))).map
          (fun s => (s.line_number, s.section_number))).Pairwise
        (fun p q => p.2 ≠ q.2) := by
      rw [hmap, List.pairwise_map]
      exact hne
    rw [List.pairwise_map] at h'
    exact h'

/-- C3: the Numbering Locator looks only at the two lines strictly before
and the two lines strictly after the title index for a line whose trimmed
content is a standalone numeral normalising to the identifier; a match in
the before-window is reported with the numeral line's own index as the
anchor (taking priority over any match after), a match found only in the
after-window is reported with the title line's index as the anchor, and
with no match in either window the locator reports not-found — so a
standalone numeral exactly 3 lines away is never found. -/
theorem C3_locator_window :
    ∀ (lines : List (List Char)) (i : Nat) (sec : List Char), i < lines.length →
      ((∃ k, (k + 1 = i ∨ k + 2 = i) ∧ matchesNumAt lines k sec = true) →
        ∃ k, (k + 1 = i ∨ k + 2 = i) ∧ matchesNumAt lines k sec = true ∧
          has_section_number_nearby lines i sec = some k) ∧
      ((¬ ∃ k, (k + 1 = i ∨ k + 2 = i) ∧ matchesNumAt lines k sec = true) →
        (∃ k, (k = i + 1 ∨ k = i + 2) ∧ k < lines.length ∧ matchesNumAt lines k sec = true) →
        has_section_number_nearby lines i sec = some i) ∧
      ((¬ ∃ k, (k + 1 = i ∨ k + 2 = i) ∧ matchesNumAt lines k sec = true) →
        (¬ ∃ k, (k = i + 1 ∨ k = i + 2) ∧ k < lines.length ∧ matchesNumAt lines k sec = true) →
        has_section_number_nearby lines i sec = none) := by
  intro lines i sec _hi
  by_cases hc1 : (decide (1 ≤ i) && matchesNumAt lines (i - 1) sec) = true
  · have hparts1 := hc1
    rw [Bool.and_eq_true] at hparts1
    obtain ⟨hi1, hm1⟩ := hparts1
    have hi1' : 1 ≤ i := of_decide_eq_true hi1
    have hres : has_section_number_nearby lines i sec = some (i - 1) := by
      unfold has_section_number_nearby
      rw [if_pos hc1]
    refine ⟨fun _ => ⟨i - 1, Or.inl (by omega), hm1, hres⟩,
            fun hnb _ => absurd ⟨i - 1, Or.inl (by omega), hm1⟩ hnb,
            fun hnb _ => absurd ⟨i - 1, Or.inl (by omega), hm1⟩ hnb⟩
  · by_cases hc2 : (decide (2 ≤ i) && matchesNumAt lines (i - 2) sec) = true
    · have hparts2 := hc2
      rw [Bool.and_eq_true] at hparts2
      obtain ⟨hi2, hm2⟩ := hparts2
      have hi2' : 2 ≤ i := of_decide_eq_true hi2
      have hres : has_section_number_nearby lines i sec = some (i - 2) := by
        unfold has_section_number_nearby
        rw [if_neg hc1, if_pos hc2]
      refine ⟨fun _ => ⟨i - 2, Or.inr (by omega), hm2, hres⟩,
              fun hnb _ => absurd ⟨i - 2, Or.inr (by omega), hm2⟩ hnb,
              fun hnb _ => absurd ⟨i - 2, Or.inr (by omega), hm2⟩ hnb⟩
    · have hnbefore : ∀ k, (k + 1 = i ∨ k + 2 = i) → matchesNumAt lines k sec = true → False := by
        intro k hk hm
        rcases hk with hk | hk
        · apply hc1
          rw [Bool.and_eq_true]
          refine ⟨decide_eq_true (by omega), ?_⟩
          have hkk : k = i - 1 := by omega
          rwa [hkk] at hm
        · apply hc2
          rw [Bool.and_eq_true]
          refine ⟨decide_eq_true (by omega), ?_⟩
          have hkk : k = i - 2 := by omega
          rwa [hkk] at hm
      by_cases hc3 : (decide (i + 1 < lines.length) && matchesNumAt lines (i + 1) sec) = true
      · have hparts3 := hc3
        rw [Bool.and_eq_true] at hparts3
        obtain ⟨hl3, hm3⟩ := hparts3
        have hres : has_section_number_nearby lines i sec = some i := by
          unfold has_section_number_nearby
          rw [if_neg hc1, if_neg hc2, if_pos hc3]
        refine ⟨?_, ?_, ?_⟩
        · rintro ⟨k, hk, hm⟩
          exact (hnbefore k hk hm).elim
        · intro _ _
          exact hres
        · intro _ hna
          exact absurd ⟨i + 1, Or.inl rfl, of_decide_eq_true hl3, hm3⟩ hna
      · by_cases hc4 : (decide (i + 2 < lines.length) && matchesNumAt lines (i + 2) sec) = true
        · have hparts4 := hc4
          rw [Bool.and_eq_true] at hparts4
          obtain ⟨hl4, hm4⟩ := hparts4
          have hres : has_section_number_nearby lines i sec = some i := by
            unfold has_section_number_nearby
            rw [if_neg hc1, if_neg hc2, if_neg hc3, if_pos hc4]
          refine ⟨?_, ?_, ?_⟩
          · rintro ⟨k, hk, hm⟩
            exact (hnbefore k hk hm).elim
          · intro _ _
            exact hres
          · intro _ hna
            exact absurd ⟨i + 2, Or.inr rfl, of_decide_eq_true hl4, hm4⟩ hna
        · have hnafter : ∀ k, (k = i + 1 ∨ k = i + 2) → k < lines.length →
              matchesNumAt lines k sec = true → False := by
            intro k hk hkl hm
            rcases hk with rfl | rfl
            · apply hc3
              rw [Bool.and_eq_true]
              exact ⟨decide_eq_true hkl, hm⟩
            · apply hc4
              rw [Bool.and_eq_true]
              exact ⟨decide_eq_true hkl, hm⟩
          have hres : has_section_number_nearby lines i sec = none := by
            unfold has_section_number_nearby
            rw [if_neg hc1, if_neg hc2, if_neg hc3, if_neg hc4]
          refine ⟨?_, ?_, ?_⟩
          · rintro ⟨k, hk, hm⟩
            exact (hnbefore k hk hm).elim
          · rintro _ ⟨k, hk, hkl, hm⟩
            exact (hnafter k hk hkl hm).elim
          · intro _ _
            exact hres

/-- Witness for C3 at a concrete input: a numeral one line before (and
one after) the middle line — the locator reports a before-window
anchor. -/
theorem C3_witness :
    ∃ k, (k + 1 = 1 ∨ k + 2 = 1) ∧ matchesNumAt demo3Lines k (("5").data) = true ∧
      has_section_number_nearby demo3Lines 1 (("5").data) = some k :=
  (C3_locator_window demo3Lines 1 (("5").data) (by decide)).1 ⟨0, Or.inl rfl, by decide⟩

end EBid
